import Mathlib

/-!
Verification development for the Abot trading engine.

Shallow embedding of the core decision components of the repository
(`config.py`, `position_sizer.py`, `risk_manager.py`, `order_executor.py`,
`volume_profile.py`, `market_conditions.py`, `enhanced_strategy.py`).

Modelling conventions:
* Python floats are modelled as exact rationals (`ℚ`); timestamps as `ℤ`
  (seconds).
* Python division, which raises `ZeroDivisionError` on a zero denominator,
  is modelled by `pdiv` in the `Except Unit` monad; functions whose Python
  bodies can raise return `Except Unit α`.
* Python `dict`s keyed by price are modelled as association lists in
  insertion order (`List (ℚ × ℚ)`), mirroring CPython's insertion-ordered
  dictionaries; `dictAdd` is `d[k] = d.get(k, 0) + v`.
* The `while` loop of `_calculate_value_area` is modelled with an explicit
  fuel parameter; `calcValueArea` supplies fuel equal to the number of
  bins, which is proved sufficient (the loop either reaches its volume
  target or has absorbed every bin by then).
* Human-readable reason strings built with f-string interpolation are
  modelled as fixed strings (for the risk/limit checks) or as structured
  `Reason` values (for the strategy), abstracting only the numeric
  formatting, never the control flow.
-/

deriving instance DecidableEq for Except

/-- Guarded division: Python raises `ZeroDivisionError` when the
denominator is zero. -/
def pdiv (a b : ℚ) : Except Unit ℚ :=
  if b = 0 then .error () else .ok (a / b)

/-- The configuration fields of `BotConfig` (config.py) that the verified
components read. -/
structure BotConfig where
  ENABLE_TRADING : Bool
  EMERGENCY_STOP : Bool
  POSITION_SIZING_METHOD : String
  RISK_PER_TRADE_PERCENT : ℚ
  FIXED_POSITION_SIZE_USDT : ℚ
  KELLY_WIN_RATE : ℚ
  KELLY_RISK_REWARD : ℚ
  KELLY_FRACTION : ℚ
  MAX_ACCOUNT_RISK_PERCENT : ℚ
  MAX_DAILY_LOSS_PERCENT : ℚ
  MAX_POSITIONS : Nat
  STOP_LOSS_PERCENT : ℚ
  TAKE_PROFIT_PERCENT : ℚ
  TRAILING_STOP_ENABLED : Bool
  TRAILING_STOP_PERCENT : ℚ
  VP_PRICE_BINS : Nat
  VP_VALUE_AREA_PERCENT : ℚ
  MIN_SIGNAL_STRENGTH : ℚ
  REQUIRE_TREND_CONFIRMATION : Bool
  deriving DecidableEq

/-- The default values from `config.py`. -/
def defConfig : BotConfig where
  ENABLE_TRADING := true
  EMERGENCY_STOP := false
  POSITION_SIZING_METHOD := "fixed_percent"
  RISK_PER_TRADE_PERCENT := 1
  FIXED_POSITION_SIZE_USDT := 50
  KELLY_WIN_RATE := 11/20
  KELLY_RISK_REWARD := 2
  KELLY_FRACTION := 1/4
  MAX_ACCOUNT_RISK_PERCENT := 5
  MAX_DAILY_LOSS_PERCENT := 3
  MAX_POSITIONS := 3
  STOP_LOSS_PERCENT := 2
  TAKE_PROFIT_PERCENT := 4
  TRAILING_STOP_ENABLED := true
  TRAILING_STOP_PERCENT := 3/2
  VP_PRICE_BINS := 100
  VP_VALUE_AREA_PERCENT := 70
  MIN_SIGNAL_STRENGTH := 60
  REQUIRE_TREND_CONFIRMATION := true

/-- The dict returned by `PositionSizer.calculate_position_size` and the
`_*_sizing` helpers.  `risk_percent` / `kelly_percent` are present only on
the corresponding methods, modelled with `Option`. -/
structure SizeResult where
  quantity_btc : ℚ
  notional_usdt : ℚ
  risk_usdt : ℚ
  method : String
  risk_percent : Option ℚ
  kelly_percent : Option ℚ
  deriving DecidableEq

/-- Model of `PositionSizer._fixed_percent_sizing` (position_sizer.py lines 48-63). -/
def fixedPercentSizing (cfg : BotConfig) (balance entry_price risk_per_btc : ℚ) :
    Except Unit SizeResult :=
  let risk_amount := balance * (cfg.RISK_PER_TRADE_PERCENT / 100)
  match pdiv risk_amount risk_per_btc with
  | .error e => .error e
  | .ok quantity_btc =>
      .ok ⟨quantity_btc, quantity_btc * entry_price, risk_amount,
           "fixed_percent", some cfg.RISK_PER_TRADE_PERCENT, none⟩

/-- Model of `PositionSizer._fixed_dollar_sizing` (position_sizer.py lines 65-79). -/
def fixedDollarSizing (cfg : BotConfig) (entry_price risk_per_btc : ℚ) :
    Except Unit SizeResult :=
  let notional_usdt := cfg.FIXED_POSITION_SIZE_USDT
  match pdiv notional_usdt entry_price with
  | .error e => .error e
  | .ok quantity_btc =>
      .ok ⟨quantity_btc, notional_usdt, quantity_btc * risk_per_btc,
           "fixed_dollar", none, none⟩

/-- Model of `PositionSizer._kelly_sizing` (position_sizer.py lines 81-117). -/
def kellySizing (cfg : BotConfig) (balance entry_price risk_per_btc signal_strength : ℚ) :
    Except Unit SizeResult :=
  match pdiv (cfg.KELLY_WIN_RATE * cfg.KELLY_RISK_REWARD - (1 - cfg.KELLY_WIN_RATE))
      cfg.KELLY_RISK_REWARD with
  | .error e => .error e
  | .ok kelly_raw =>
      let kelly_percent := max 0 kelly_raw * cfg.KELLY_FRACTION * (signal_strength / 100)
      let risk_amount := balance * kelly_percent
      match pdiv risk_amount risk_per_btc with
      | .error e => .error e
      | .ok quantity_btc =>
          .ok ⟨quantity_btc, quantity_btc * entry_price, risk_amount,
               "kelly", none, some (kelly_percent * 100)⟩

/-- Model of `PositionSizer.calculate_position_size` (position_sizer.py lines 14-46).
Line 33 computes `risk_percent = risk_per_btc / entry_price` before the
method dispatch; the value is unused but the division can raise. -/
def calculatePositionSize (cfg : BotConfig)
    (account_balance entry_price stop_loss_price signal_strength : ℚ) :
    Except Unit SizeResult :=
  if account_balance ≤ 0 then
    .ok ⟨0, 0, 0, "no_balance", none, none⟩
  else
    let risk_per_btc := |entry_price - stop_loss_price|
    match pdiv risk_per_btc entry_price with
    | .error e => .error e
    | .ok _risk_percent =>
        if cfg.POSITION_SIZING_METHOD = "fixed_percent" then
          fixedPercentSizing cfg account_balance entry_price risk_per_btc
        else if cfg.POSITION_SIZING_METHOD = "fixed_dollar" then
          fixedDollarSizing cfg entry_price risk_per_btc
        else if cfg.POSITION_SIZING_METHOD = "kelly" then
          kellySizing cfg account_balance entry_price risk_per_btc signal_strength
        else
          fixedPercentSizing cfg account_balance entry_price risk_per_btc

/-- On the `fixed_percent` path with positive balance, nonzero entry and
nonzero risk-per-unit, `calculate_position_size` returns exactly the
fixed-percent result. -/
lemma calc_fixed_percent_eq (cfg : BotConfig) (balance entry stop strength : ℚ)
    (hb : 0 < balance) (he : entry ≠ 0) (hrisk : |entry - stop| ≠ 0)
    (hm : cfg.POSITION_SIZING_METHOD = "fixed_percent") :
    calculatePositionSize cfg balance entry stop strength =
      .ok ⟨balance * (cfg.RISK_PER_TRADE_PERCENT / 100) / |entry - stop|,
           balance * (cfg.RISK_PER_TRADE_PERCENT / 100) / |entry - stop| * entry,
           balance * (cfg.RISK_PER_TRADE_PERCENT / 100),
           "fixed_percent", some cfg.RISK_PER_TRADE_PERCENT, none⟩ := by
  unfold calculatePositionSize fixedPercentSizing pdiv
  simp [not_le.mpr hb, he, hm, hrisk]

/-- Claim C4: for positive balance and `entry ≠ stop`, any result produced
by the `fixed_percent` method satisfies
`quantity_btc * |entry - stop| = balance * RISK_PER_TRADE_PERCENT / 100`
(exactly, over ℚ), and whenever additionally `entry ≠ 0` a result is
produced. -/
theorem c4_fixed_percent_risk_identity (cfg : BotConfig)
    (balance entry stop strength : ℚ) (hb : 0 < balance) (hes : entry ≠ stop)
    (hm : cfg.POSITION_SIZING_METHOD = "fixed_percent") :
    (∀ r, calculatePositionSize cfg balance entry stop strength = .ok r →
        r.quantity_btc * |entry - stop| = balance * (cfg.RISK_PER_TRADE_PERCENT / 100)) ∧
    (entry ≠ 0 → ∃ r, calculatePositionSize cfg balance entry stop strength = .ok r) := by
  have hrisk : |entry - stop| ≠ 0 := by
    simp only [ne_eq, abs_eq_zero, sub_eq_zero]
    exact hes
  constructor
  · intro r hr
    by_cases he : entry = 0
    · unfold calculatePositionSize pdiv at hr
      simp [not_le.mpr hb, he] at hr
    · rw [calc_fixed_percent_eq cfg balance entry stop strength hb he hrisk hm] at hr
      simp only [Except.ok.injEq] at hr
      subst hr
      exact div_mul_cancel₀ _ hrisk
  · intro he
    exact ⟨_, calc_fixed_percent_eq cfg balance entry stop strength hb he hrisk hm⟩

/-- Witness for C4 at the spec's own scenario: balance 1000, entry 50000,
stop 49000 — quantity 0.01 BTC, risk 10. -/
theorem c4_fixed_percent_risk_identity_witness :
    (∀ r, calculatePositionSize defConfig 1000 50000 49000 50 = .ok r →
        r.quantity_btc * |(50000 : ℚ) - 49000| =
          1000 * (defConfig.RISK_PER_TRADE_PERCENT / 100)) ∧
    ((50000 : ℚ) ≠ 0 → ∃ r, calculatePositionSize defConfig 1000 50000 49000 50 = .ok r) :=
  c4_fixed_percent_risk_identity defConfig 1000 50000 49000 50
    (by norm_num) (by norm_num) rfl

/-- Claim C9: a zero or negative account balance yields the `no_balance`
zero result and never an error, for every entry/stop price. -/
theorem c9_no_balance_graceful (cfg : BotConfig) (balance entry stop strength : ℚ)
    (hb : balance ≤ 0) :
    calculatePositionSize cfg balance entry stop strength =
      .ok ⟨0, 0, 0, "no_balance", none, none⟩ := by
  unfold calculatePositionSize
  rw [if_pos hb]

/-- Witness for C9 at balance 0 and degenerate prices. -/
theorem c9_no_balance_graceful_witness :
    calculatePositionSize defConfig 0 0 0 50 =
      .ok ⟨0, 0, 0, "no_balance", none, none⟩ :=
  c9_no_balance_graceful defConfig 0 0 0 50 (by norm_num)

/-- Claim C10: with positive balance `calculate_position_size` is partial:
entry price 0 raises (the `risk_percent` division on line 33), and equal
entry and stop raise on the `fixed_percent` and `kelly` paths (division by
the zero risk-per-unit); the graceful no-error result is guaranteed only
for non-positive balance. -/
theorem c10_positive_balance_can_raise (cfg : BotConfig)
    (balance entry stop strength : ℚ) :
    (0 < balance → entry = 0 →
        calculatePositionSize cfg balance entry stop strength = .error ()) ∧
    (0 < balance → entry = stop → cfg.POSITION_SIZING_METHOD = "fixed_percent" →
        calculatePositionSize cfg balance entry stop strength = .error ()) ∧
    (0 < balance → entry = stop → cfg.POSITION_SIZING_METHOD = "kelly" →
        calculatePositionSize cfg balance entry stop strength = .error ()) ∧
    (balance ≤ 0 →
        (calculatePositionSize cfg balance entry stop strength).isOk = true) := by
  refine ⟨?_, ?_, ?_, ?_⟩
  · intro hb he
    unfold calculatePositionSize pdiv
    simp [not_le.mpr hb, he]
  · intro hb hes hm
    subst hes
    unfold calculatePositionSize fixedPercentSizing pdiv
    by_cases he : entry = 0
    · simp [not_le.mpr hb, he]
    · simp [not_le.mpr hb, he, hm]
  · intro hb hes hm
    subst hes
    unfold calculatePositionSize kellySizing pdiv
    by_cases he : entry = 0
    · simp [not_le.mpr hb, he]
    · by_cases hk : cfg.KELLY_RISK_REWARD = 0
      · simp [not_le.mpr hb, he, hm, hk]
      · simp [not_le.mpr hb, he, hm, hk]
  · intro hb
    unfold calculatePositionSize
    simp [hb, Except.isOk, Except.toBool]

/-- Witness for C10: at balance 1000 the three raising cases and the
non-positive-balance case are realized concretely. -/
theorem c10_positive_balance_can_raise_witness :
    ((0 : ℚ) < 1000 → (0 : ℚ) = 0 →
        calculatePositionSize defConfig 1000 0 7 50 = .error ()) ∧
    ((0 : ℚ) < 1000 → (7 : ℚ) = 7 → defConfig.POSITION_SIZING_METHOD = "fixed_percent" →
        calculatePositionSize defConfig 1000 7 7 50 = .error ()) ∧
    ((0 : ℚ) < 1000 → (7 : ℚ) = 7 →
        { defConfig with POSITION_SIZING_METHOD := "kelly" }.POSITION_SIZING_METHOD = "kelly" →
        calculatePositionSize { defConfig with POSITION_SIZING_METHOD := "kelly" } 1000 7 7 50 =
          .error ()) ∧
    ((1000 : ℚ) < 1000 → False) ∧
    ((-5 : ℚ) ≤ 0 →
        (calculatePositionSize defConfig (-5) 7 6 50).isOk = true) :=
  ⟨(c10_positive_balance_can_raise defConfig 1000 0 7 50).1,
   fun h1 _ h3 => (c10_positive_balance_can_raise defConfig 1000 7 7 50).2.1 h1 rfl h3,
   fun h1 _ h3 =>
     (c10_positive_balance_can_raise { defConfig with POSITION_SIZING_METHOD := "kelly" }
       1000 7 7 50).2.2.1 h1 rfl h3,
   fun h => absurd h (by norm_num),
   fun _ => (c10_positive_balance_can_raise defConfig (-5) 7 6 50).2.2.2 (by norm_num)⟩

/-- An open position as read from the exchange account state
(`position['symbol']`, `positionSide`, `entryPrice`, `positionAmt`). -/
structure PositionRec where
  symbol : String
  positionSide : String
  entryPrice : ℚ
  positionAmt : ℚ
  deriving DecidableEq

/-- The mutable data-collector/risk state threaded through the executor:
account balance, daily PnL, daily trade count, open positions, and the
risk manager's daily reset time. -/
structure BotState where
  account_balance : ℚ
  daily_pnl : ℚ
  daily_trades : Nat
  open_positions : List PositionRec
  daily_reset_time : ℤ
  deriving DecidableEq

/-- Python's `datetime.now().replace(hour=0, minute=0, second=0)`: midnight of the
current day, with time modelled as integer seconds since the epoch. -/
def midnightOf (now : ℤ) : ℤ := 86400 * (now / 86400)

/-- Model of `RiskManager.check_daily_limits` (risk_manager.py lines 68-84).
Returns the `(can_trade, reason)` pair together with the state after the
potential midnight reset of the daily counters. -/
def checkDailyLimits (cfg : BotConfig) (now : ℤ) (st : BotState) :
    Except Unit (Bool × String × BotState) :=
  let st1 := if now > st.daily_reset_time + 86400 then
      { st with daily_pnl := 0, daily_trades := 0, daily_reset_time := midnightOf now }
    else st
  if st1.daily_pnl < 0 then
    match pdiv |st1.daily_pnl| st1.account_balance with
    | .error e => .error e
    | .ok loss_frac =>
        if loss_frac * 100 ≥ cfg.MAX_DAILY_LOSS_PERCENT then
          .ok (false, "Daily loss limit hit", st1)
        else
          .ok (true, "Daily limits OK", st1)
  else
    .ok (true, "Daily limits OK", st1)

/-- Model of `PositionSizer.check_risk_limits` (position_sizer.py lines 119-142). -/
def checkRiskLimits (cfg : BotConfig) (st : BotState) (ps : SizeResult) :
    Except Unit (Bool × String) :=
  let max_risk := st.account_balance * (cfg.MAX_ACCOUNT_RISK_PERCENT / 100)
  if ps.risk_usdt > max_risk then
    .ok (false, "Position risk exceeds max")
  else if st.daily_pnl < 0 then
    match pdiv |st.daily_pnl| st.account_balance with
    | .error e => .error e
    | .ok loss_frac =>
        if loss_frac * 100 ≥ cfg.MAX_DAILY_LOSS_PERCENT then
          .ok (false, "Daily loss limit reached")
        else if st.open_positions.length ≥ cfg.MAX_POSITIONS then
          .ok (false, "Maximum positions reached")
        else
          .ok (true, "Position size valid")
  else if st.open_positions.length ≥ cfg.MAX_POSITIONS then
    .ok (false, "Maximum positions reached")
  else
    .ok (true, "Position size valid")

/-- The signal dict consumed by `OrderExecutor.execute_signal`. -/
structure TradeSignal where
  action : String
  entry_price : ℚ
  stop_loss : ℚ
  take_profit : ℚ
  strength : ℚ
  deriving DecidableEq

/-- Possible outcomes of one `execute_signal` call: rejection at one of the
four gates, or hand-off of the sized order to `_place_market_order`. -/
inductive ExecOutcome where
  | rejectedDisabled
  | rejectedEmergency
  | rejectedDaily (reason : String)
  | rejectedRisk (reason : String)
  | placed (ps : SizeResult)
  deriving DecidableEq

/-- Model of `OrderExecutor.execute_signal` (order_executor.py lines 21-53): the
four-gate sequence ending in the hand-off to the external order placement
collaborator (`_place_market_order`), modelled as the `placed` outcome. -/
def executeSignal (cfg : BotConfig) (st : BotState) (now : ℤ) (sig : TradeSignal) :
    Except Unit ExecOutcome :=
  if cfg.ENABLE_TRADING = false then .ok .rejectedDisabled
  else if cfg.EMERGENCY_STOP = true then .ok .rejectedEmergency
  else
    match checkDailyLimits cfg now st with
    | .error e => .error e
    | .ok (can_trade, reason, st1) =>
        if can_trade = false then .ok (.rejectedDaily reason)
        else
          match calculatePositionSize cfg st1.account_balance sig.entry_price
              sig.stop_loss sig.strength with
          | .error e => .error e
          | .ok position_size =>
              match checkRiskLimits cfg st1 position_size with
              | .error e => .error e
              | .ok (is_valid, validation_msg) =>
                  if is_valid = false then .ok (.rejectedRisk validation_msg)
                  else .ok (.placed position_size)

/-- Claim C1: an order is handed off iff all four gates pass in sequence
(trading enabled, no emergency stop, daily limits OK on the possibly reset
state, and the computed position size accepted by the risk-limit check);
when a gate fails, execution stops exactly at that gate. -/
theorem c1_execute_signal_gates (cfg : BotConfig) (st : BotState) (now : ℤ)
    (sig : TradeSignal) :
    (∀ ps, executeSignal cfg st now sig = .ok (.placed ps) →
        cfg.ENABLE_TRADING = true ∧ cfg.EMERGENCY_STOP = false ∧
        ∃ r st1 msg, checkDailyLimits cfg now st = .ok (true, r, st1) ∧
          calculatePositionSize cfg st1.account_balance sig.entry_price
            sig.stop_loss sig.strength = .ok ps ∧
          checkRiskLimits cfg st1 ps = .ok (true, msg)) ∧
    (cfg.ENABLE_TRADING = false →
        executeSignal cfg st now sig = .ok .rejectedDisabled) ∧
    (cfg.ENABLE_TRADING = true → cfg.EMERGENCY_STOP = true →
        executeSignal cfg st now sig = .ok .rejectedEmergency) ∧
    (∀ r st1, cfg.ENABLE_TRADING = true → cfg.EMERGENCY_STOP = false →
        checkDailyLimits cfg now st = .ok (false, r, st1) →
        executeSignal cfg st now sig = .ok (.rejectedDaily r)) ∧
    (∀ r st1 ps msg, cfg.ENABLE_TRADING = true → cfg.EMERGENCY_STOP = false →
        checkDailyLimits cfg now st = .ok (true, r, st1) →
        calculatePositionSize cfg st1.account_balance sig.entry_price
          sig.stop_loss sig.strength = .ok ps →
        checkRiskLimits cfg st1 ps = .ok (false, msg) →
        executeSignal cfg st now sig = .ok (.rejectedRisk msg)) ∧
    (∀ r st1 ps msg, cfg.ENABLE_TRADING = true → cfg.EMERGENCY_STOP = false →
        checkDailyLimits cfg now st = .ok (true, r, st1) →
        calculatePositionSize cfg st1.account_balance sig.entry_price
          sig.stop_loss sig.strength = .ok ps →
        checkRiskLimits cfg st1 ps = .ok (true, msg) →
        executeSignal cfg st now sig = .ok (.placed ps)) := by
  refine ⟨?_, ?_, ?_, ?_, ?_, ?_⟩
  · intro ps h
    unfold executeSignal at h
    split at h
    · simp at h
    · split at h
      · simp at h
      · rename_i hen hem
        rw [Bool.not_eq_false] at hen
        rw [Bool.not_eq_true] at hem
        refine ⟨hen, hem, ?_⟩
        split at h
        · simp at h
        · rename_i can r st1 hd
          split at h
          · simp at h
          · rename_i hcan
            rw [Bool.not_eq_false] at hcan
            subst hcan
            split at h
            · simp at h
            · rename_i ps1 hps
              split at h
              · simp at h
              · rename_i valid msg hrl
                split at h
                · simp at h
                · rename_i hv
                  rw [Bool.not_eq_false] at hv
                  subst hv
                  simp only [Except.ok.injEq, ExecOutcome.placed.injEq] at h
                  subst h
                  exact ⟨r, st1, msg, hd, hps, hrl⟩
  · intro hen
    unfold executeSignal
    simp [hen]
  · intro hen hem
    unfold executeSignal
    simp [hen, hem]
  · intro r st1 hen hem hd
    unfold executeSignal
    simp [hen, hem, hd]
  · intro r st1 ps msg hen hem hd hps hrl
    unfold executeSignal
    simp [hen, hem, hd, hps, hrl]
  · intro r st1 ps msg hen hem hd hps hrl
    unfold executeSignal
    simp [hen, hem, hd, hps, hrl]

/-- Witness for C1: with the default config, a healthy account state and
the spec's scenario signal, all four gates pass and the sized order is
handed off. -/
theorem c1_execute_signal_gates_witness :
    executeSignal defConfig ⟨1000, 0, 0, [], 0⟩ 10 ⟨"buy", 50000, 49000, 52000, 50⟩ =
      .ok (.placed ⟨1/100, 500, 10, "fixed_percent", some 1, none⟩) := by
  have hd : checkDailyLimits defConfig 10 ⟨1000, 0, 0, [], 0⟩ =
      .ok (true, "Daily limits OK", ⟨1000, 0, 0, [], 0⟩) := by
    unfold checkDailyLimits
    norm_num
  have habs : |(50000 : ℚ) - 49000| = 1000 := by
    rw [show (50000 : ℚ) - 49000 = 1000 by norm_num, abs_of_pos]
    norm_num
  have hps : calculatePositionSize defConfig 1000 50000 49000 50 =
      .ok ⟨1/100, 500, 10, "fixed_percent", some 1, none⟩ := by
    rw [calc_fixed_percent_eq defConfig 1000 50000 49000 50 (by norm_num)
      (by norm_num) (by rw [habs]; norm_num) rfl]
    rw [habs]
    norm_num [defConfig]
  have hrl : checkRiskLimits defConfig ⟨1000, 0, 0, [], 0⟩
      ⟨1/100, 500, 10, "fixed_percent", some 1, none⟩ = .ok (true, "Position size valid") := by
    unfold checkRiskLimits
    norm_num [defConfig]
  exact (c1_execute_signal_gates defConfig ⟨1000, 0, 0, [], 0⟩ 10
      ⟨"buy", 50000, 49000, 52000, 50⟩).2.2.2.2.2
    "Daily limits OK" ⟨1000, 0, 0, [], 0⟩
    ⟨1/100, 500, 10, "fixed_percent", some 1, none⟩ "Position size valid"
    rfl rfl hd hps hrl

/-- Lookup in the `active_stops` dict (`position_id in self.active_stops`,
`self.active_stops[position_id]`). -/
def stopsLookup : List (String × ℚ) → String → Option ℚ
  | [], _ => none
  | (k, v) :: rest, key => if k = key then some v else stopsLookup rest key

/-- Assignment `self.active_stops[position_id] = new_stop`: overwrite the
existing entry or append a new one. -/
def stopsSet : List (String × ℚ) → String → ℚ → List (String × ℚ)
  | [], key, v => [(key, v)]
  | (k, w) :: rest, key, v =>
      if k = key then (k, v) :: rest else (k, w) :: stopsSet rest key v

/-- Model of `RiskManager._update_trailing_stop` (risk_manager.py lines 41-66),
returning the updated `active_stops` map. -/
def updateTrailingStop (cfg : BotConfig) (active_stops : List (String × ℚ))
    (pos : PositionRec) (current_price unrealized_pnl : ℚ) : List (String × ℚ) :=
  let position_id := pos.symbol ++ "_" ++ pos.positionSide
  let is_long := 0 < pos.positionAmt
  if unrealized_pnl ≤ 0 then active_stops
  else if is_long then
    let new_stop := current_price * (1 - cfg.TRAILING_STOP_PERCENT / 100)
    match stopsLookup active_stops position_id with
    | none => stopsSet active_stops position_id new_stop
    | some s => if new_stop > s then stopsSet active_stops position_id new_stop
                else active_stops
  else
    let new_stop := current_price * (1 + cfg.TRAILING_STOP_PERCENT / 100)
    match stopsLookup active_stops position_id with
    | none => stopsSet active_stops position_id new_stop
    | some s => if new_stop < s then stopsSet active_stops position_id new_stop
                else active_stops

/-- Setting a key really stores it: `stopsSet` then `stopsLookup` yields the assigned value. -/
lemma stopsLookup_stopsSet_self (stops : List (String × ℚ)) (key : String) (v : ℚ) :
    stopsLookup (stopsSet stops key v) key = some v := by
  induction stops with
  | nil => simp [stopsSet, stopsLookup]
  | cons hd rest ih =>
    obtain ⟨k, w⟩ := hd
    by_cases hk : k = key
    · simp [stopsSet, stopsLookup, hk]
    · simp [stopsSet, stopsLookup, hk, ih]

/-- Claim C2: one `_update_trailing_stop` call never touches the map when
PnL ≤ 0; with positive PnL a long position's tracked stop becomes
`max old new` (so it is non-decreasing and replaced only when the new stop
is strictly higher), and a short position's becomes `min old new`. -/
theorem c2_trailing_stop_monotonic (cfg : BotConfig) (active_stops : List (String × ℚ))
    (pos : PositionRec) (current_price unrealized_pnl : ℚ) :
    (unrealized_pnl ≤ 0 →
        updateTrailingStop cfg active_stops pos current_price unrealized_pnl = active_stops) ∧
    (0 < unrealized_pnl → 0 < pos.positionAmt →
        ∀ s, stopsLookup active_stops (pos.symbol ++ "_" ++ pos.positionSide) = some s →
          stopsLookup (updateTrailingStop cfg active_stops pos current_price unrealized_pnl)
              (pos.symbol ++ "_" ++ pos.positionSide) =
            some (max s (current_price * (1 - cfg.TRAILING_STOP_PERCENT / 100)))) ∧
    (0 < unrealized_pnl → ¬ (0 < pos.positionAmt) →
        ∀ s, stopsLookup active_stops (pos.symbol ++ "_" ++ pos.positionSide) = some s →
          stopsLookup (updateTrailingStop cfg active_stops pos current_price unrealized_pnl)
              (pos.symbol ++ "_" ++ pos.positionSide) =
            some (min s (current_price * (1 + cfg.TRAILING_STOP_PERCENT / 100)))) := by
  refine ⟨?_, ?_, ?_⟩
  · intro hpnl
    unfold updateTrailingStop
    simp [hpnl]
  · intro hpnl hlong s hs
    unfold updateTrailingStop
    simp only [not_le.mpr hpnl, if_false, hlong, if_true, hs, ite_false, ite_true]
    by_cases hgt : current_price * (1 - cfg.TRAILING_STOP_PERCENT / 100) > s
    · simp [hgt, stopsLookup_stopsSet_self, max_eq_right (le_of_lt hgt)]
    · simp [hgt, hs, max_eq_left (not_lt.mp hgt)]
  · intro hpnl hshort s hs
    unfold updateTrailingStop
    simp only [not_le.mpr hpnl, if_false, hshort, hs, ite_false, ite_true]
    by_cases hlt : current_price * (1 + cfg.TRAILING_STOP_PERCENT / 100) < s
    · simp [hlt, stopsLookup_stopsSet_self, min_eq_right (le_of_lt hlt)]
    · simp [hlt, hs, min_eq_left (not_lt.mp hlt)]

/-- Witness for C2: a profitable long at price 110 with a tracked stop of
100 is raised to 110·(1 − 1.5/100) = 108.35. -/
theorem c2_trailing_stop_monotonic_witness :
    ((0 : ℚ) ≤ 0 →
        updateTrailingStop defConfig [("BTCUSDT_LONG", 100)]
          ⟨"BTCUSDT", "LONG", 90, 1⟩ 110 0 = [("BTCUSDT_LONG", 100)]) ∧
    ((0 : ℚ) < 5 → (0 : ℚ) < 1 →
        stopsLookup (updateTrailingStop defConfig [("BTCUSDT_LONG", 100)]
            ⟨"BTCUSDT", "LONG", 90, 1⟩ 110 5) "BTCUSDT_LONG" =
          some (max 100 (110 * (1 - defConfig.TRAILING_STOP_PERCENT / 100)))) := by
  constructor
  · exact (c2_trailing_stop_monotonic defConfig [("BTCUSDT_LONG", 100)]
      ⟨"BTCUSDT", "LONG", 90, 1⟩ 110 0).1
  · intro h1 h2
    exact (c2_trailing_stop_monotonic defConfig [("BTCUSDT_LONG", 100)]
      ⟨"BTCUSDT", "LONG", 90, 1⟩ 110 5).2.1 h1 h2 100 (by decide)

/-- A trade print as stored by the data collector: timestamp (seconds),
price, quantity. -/
structure Trade where
  timestamp : ℤ
  price : ℚ
  quantity : ℚ
  deriving DecidableEq

/-- Python's `min(prices)` for a non-empty Python list. -/
def listMin : List ℚ → ℚ
  | [] => 0
  | x :: xs => xs.foldl min x

/-- Python's `max(prices)` for a non-empty Python list. -/
def listMax : List ℚ → ℚ
  | [] => 0
  | x :: xs => xs.foldl max x

/-- Python's `d[k] = d.get(k, 0) + v` on an insertion-ordered dict: update the
existing entry in place, else append at the end. -/
def dictAdd : List (ℚ × ℚ) → ℚ → ℚ → List (ℚ × ℚ)
  | [], k, v => [(k, v)]
  | (k1, v1) :: rest, k, v =>
      if k1 = k then (k1, v1 + v) :: rest else (k1, v1) :: dictAdd rest k v

/-- Python's `self.profile[key]` with default, first match in insertion order. -/
def lookupD : List (ℚ × ℚ) → ℚ → ℚ → ℚ
  | [], _, d => d
  | (k1, v1) :: rest, k, d => if k1 = k then v1 else lookupD rest k d

/-- Python's `sum(d.values())`. -/
def sumValues (m : List (ℚ × ℚ)) : ℚ := (m.map Prod.snd).sum

/-- Inner loop of CPython's `max(d, key=d.get)`: the running best is
replaced only when a strictly greater value appears, so the first maximal
entry in iteration (= insertion) order wins. -/
def pocAux (bk bv : ℚ) : List (ℚ × ℚ) → ℚ
  | [] => bk
  | (k, v) :: rest => if v > bv then pocAux k v rest else pocAux bk bv rest

/-- Python's `max(volume_by_price, key=volume_by_price.get)`
(volume_profile.py line 59). -/
def pocOf : List (ℚ × ℚ) → ℚ
  | [] => 0
  | (k, v) :: rest => pocAux k v rest

/-- Python's `sorted(self.profile.keys())`. -/
def sortedKeys (m : List (ℚ × ℚ)) : List ℚ :=
  (m.map Prod.fst).mergeSort (fun a b => a ≤ b)

/-- The bin volumes in ascending price order:
`[self.profile[p] for p in sorted_prices]`. -/
def binVols (m : List (ℚ × ℚ)) : List ℚ :=
  (sortedKeys m).map (fun p => lookupD m p 0)

/-- The `while va_volume < target_volume` loop of `_calculate_value_area`
(volume_profile.py lines 88-100), with an explicit fuel bound on the
number of iterations.  Each iteration moves `low` down or `high` up, so
`vols.length` fuel (supplied by `calcValueArea`) is enough for the loop to
terminate exactly as the Python loop does — see `vaLoop_spec`. -/
def vaLoop (vols : List ℚ) (target : ℚ) : Nat → Nat → Nat → ℚ → Nat × Nat × ℚ
  | 0, low, high, va => (low, high, va)
  | fuel + 1, low, high, va =>
      if va < target then
        let low_vol := if 0 < low then vols.getD (low - 1) 0 else 0
        let high_vol := if high + 1 < vols.length then vols.getD (high + 1) 0 else 0
        if low_vol > high_vol ∧ 0 < low then
          vaLoop vols target fuel (low - 1) high (va + low_vol)
        else if high + 1 < vols.length then
          vaLoop vols target fuel low (high + 1) (va + high_vol)
        else (low, high, va)
      else (low, high, va)

/-- Model of `VolumeProfile._calculate_value_area` (volume_profile.py lines 72-103):
returns `(value_area_low, value_area_high)`.  On an empty profile the
Python method returns without touching the (initially 0.0) fields. -/
def calcValueArea (cfg : BotConfig) (profile : List (ℚ × ℚ)) (poc : ℚ) : ℚ × ℚ :=
  if profile = [] then (0, 0)
  else
    let total_volume := sumValues profile
    let target_volume := total_volume * (cfg.VP_VALUE_AREA_PERCENT / 100)
    let sorted_prices := sortedKeys profile
    let poc_index := List.indexOf poc sorted_prices
    let vols := binVols profile
    let r := vaLoop vols target_volume vols.length poc_index poc_index (lookupD profile poc 0)
    (sorted_prices.getD r.1 0, sorted_prices.getD r.2.1 0)

/-- The filtered recent-trades window
(`[t for t in trades if t['timestamp'] > cutoff_time]`). -/
def recentTrades (trades : List Trade) (cutoff : ℤ) : List Trade :=
  trades.filter (fun t => cutoff < t.timestamp)

/-- Bin assignment (volume_profile.py lines 47-48):
`bin_index = int((price - min_price) / bin_size)`;
`bin_price = min_price + bin_index * bin_size`.  For in-range prices and a
positive bin size the quotient is non-negative, so Python's
truncate-toward-zero `int()` agrees with the floor used here. -/
def binKey (min_price bin_size p : ℚ) : ℚ :=
  min_price + (⌊(p - min_price) / bin_size⌋ : ℤ) * bin_size

/-- The `volume_by_price` aggregation loop (volume_profile.py lines 43-53). -/
def buildDict (recent : List Trade) (min_price bin_size : ℚ) : List (ℚ × ℚ) :=
  recent.foldl (fun m t => dictAdd m (binKey min_price bin_size t.price) t.quantity) []

/-- The dict returned by `VolumeProfile.build_profile`. -/
structure ProfileResult where
  profile : List (ℚ × ℚ)
  poc : ℚ
  value_area_high : ℚ
  value_area_low : ℚ
  total_volume : ℚ
  deriving DecidableEq

/-- Model of `VolumeProfile.build_profile` (volume_profile.py lines 19-70).
`none` models the early `return {}` on an empty window.  The `.error`
cases model Python crashes: `VP_PRICE_BINS = 0` raises
`ZeroDivisionError` on line 40, and a zero bin size (all prices equal)
makes `(price - min)/bin_size` a NaN whose `int()` raises `ValueError`
on line 47. -/
def buildProfile (cfg : BotConfig) (trades : List Trade) (cutoff : ℤ) :
    Except Unit (Option ProfileResult) :=
  let recent := recentTrades trades cutoff
  if recent = [] then .ok none
  else
    let prices := recent.map (fun t => t.price)
    let min_price := listMin prices
    let max_price := listMax prices
    if cfg.VP_PRICE_BINS = 0 then .error ()
    else
      let bin_size := (max_price - min_price) / (cfg.VP_PRICE_BINS : ℚ)
      if bin_size = 0 then .error ()
      else
        let volume_by_price := buildDict recent min_price bin_size
        let poc := pocOf volume_by_price
        let va := calcValueArea cfg volume_by_price poc
        .ok (some ⟨volume_by_price, poc, va.2, va.1, sumValues volume_by_price⟩)

/-- Sum of the bin volumes with indices in `[a, b]` (ascending price
order): the cumulative volume of a contiguous band of bins. -/
def rangeSum (vols : List ℚ) (a b : Nat) : ℚ := ((vols.take (b + 1)).drop a).sum

lemma rangeSum_extend_low (vols : List ℚ) (a b : Nat) (h1 : 0 < a) (h2 : a ≤ b + 1)
    (h3 : a - 1 < vols.length) :
    rangeSum vols (a - 1) b = vols.getD (a - 1) 0 + rangeSum vols a b := by
  unfold rangeSum
  have hlen : a - 1 < (vols.take (b + 1)).length := by
    rw [List.length_take]
    omega
  rw [List.drop_eq_getElem_cons hlen, List.getElem_take, List.sum_cons,
    show a - 1 + 1 = a by omega, List.getD_eq_getElem vols 0 h3]

lemma rangeSum_extend_high (vols : List ℚ) (a b : Nat) (h1 : a ≤ b + 1)
    (h2 : b + 1 < vols.length) :
    rangeSum vols a (b + 1) = rangeSum vols a b + vols.getD (b + 1) 0 := by
  unfold rangeSum
  rw [List.take_succ, List.getElem?_eq_getElem h2]
  rw [Option.toList_some,
    List.drop_append_of_le_length (by rw [List.length_take]; omega),
    List.sum_append, List.getD_eq_getElem vols 0 h2]
  simp

lemma rangeSum_single (vols : List ℚ) (a : Nat) (h : a < vols.length) :
    rangeSum vols a a = vols.getD a 0 := by
  unfold rangeSum
  have hlen : a < (vols.take (a + 1)).length := by
    rw [List.length_take]
    omega
  have hnil : (vols.take (a + 1)).drop (a + 1) = [] := by
    apply List.drop_eq_nil_of_le
    rw [List.length_take]
    omega
  rw [List.drop_eq_getElem_cons hlen, List.getElem_take, hnil, List.sum_cons,
    List.sum_nil, add_zero, List.getD_eq_getElem vols 0 h]

lemma rangeSum_total (vols : List ℚ) (h : vols ≠ []) :
    rangeSum vols 0 (vols.length - 1) = vols.sum := by
  unfold rangeSum
  rw [List.drop_zero, show vols.length - 1 + 1 = vols.length by
    cases vols with
    | nil => exact absurd rfl h
    | cons x xs => simp]
  rw [List.take_length]

lemma getD_pos_of_mem (vols : List ℚ) (i : Nat) (h : i < vols.length)
    (hpos : ∀ v ∈ vols, 0 < v) : 0 < vols.getD i 0 := by
  rw [List.getD_eq_getElem vols 0 h]
  exact hpos _ (List.getElem_mem h)

/-- Invariant carried by the value-area expansion loop: the returned band
only grows, stays inside the bin list, its recorded volume is exactly the
band's cumulative volume, and the volume target has been reached. -/
def vaLoopGood (vols : List ℚ) (target : ℚ) (low high : Nat) (r : Nat × Nat × ℚ) : Prop :=
  r.1 ≤ low ∧ high ≤ r.2.1 ∧ r.1 ≤ r.2.1 ∧ r.2.1 < vols.length ∧
  r.2.2 = rangeSum vols r.1 r.2.1 ∧ target ≤ r.2.2

/-- Main loop lemma: with all bin volumes positive, a reachable target
(`target ≤ total`), and fuel at least `low + (n-1-high) + 1`, the loop
returns a band satisfying `vaLoopGood` — in particular the cumulative
volume never undershoots the target. -/
lemma vaLoop_spec (vols : List ℚ) (target : ℚ)
    (hpos : ∀ v ∈ vols, 0 < v) (htot : target ≤ vols.sum) :
    ∀ fuel low high va,
      low + (vols.length - 1 - high) + 1 ≤ fuel →
      low ≤ high → high < vols.length →
      va = rangeSum vols low high →
      vaLoopGood vols target low high (vaLoop vols target fuel low high va) := by
  intro fuel
  induction fuel with
  | zero => intro low high va hfuel; omega
  | succ f ih =>
    intro low high va hfuel hlh hhn hva
    by_cases hlt : va < target
    · simp only [vaLoop]
      rw [if_pos hlt]
      by_cases hc1 : (if 0 < low then vols.getD (low - 1) 0 else 0) >
          (if high + 1 < vols.length then vols.getD (high + 1) 0 else 0) ∧ 0 < low
      · rw [if_pos hc1]
        have hlow := hc1.2
        rw [if_pos hlow]
        have hres := ih (low - 1) high (va + vols.getD (low - 1) 0) (by omega)
          (by omega) hhn (by
            rw [rangeSum_extend_low vols low high hlow (by omega) (by omega), hva]
            ring)
        obtain ⟨g1, g2, g3, g4, g5, g6⟩ := hres
        exact ⟨by omega, g2, g3, g4, g5, g6⟩
      · rw [if_neg hc1]
        by_cases hc2 : high + 1 < vols.length
        · rw [if_pos hc2, if_pos hc2]
          have hres := ih low (high + 1) (va + vols.getD (high + 1) 0) (by omega)
            (by omega) hc2 (by
              rw [rangeSum_extend_high vols low high (by omega) hc2, hva])
          obtain ⟨g1, g2, g3, g4, g5, g6⟩ := hres
          exact ⟨g1, by omega, g3, g4, g5, g6⟩
        · rw [if_neg hc2]
          have hhigh_eq : high = vols.length - 1 := by omega
          have hlow0 : low = 0 := by
            by_contra hl
            have hlow : 0 < low := by omega
            have hlv : 0 < vols.getD (low - 1) 0 :=
              getD_pos_of_mem vols (low - 1) (by omega) hpos
            exact hc1 ⟨by rw [if_pos hlow, if_neg hc2]; exact hlv, hlow⟩
          have hfull : va = vols.sum := by
            rw [hva, hlow0, hhigh_eq]
            exact rangeSum_total vols (by
              intro hnil
              rw [hnil] at hhn
              simp at hhn)
          exact ⟨le_refl _, le_refl _, hlh, hhn, hva, by rw [hfull]; exact htot⟩
    · simp only [vaLoop]
      rw [if_neg hlt]
      exact ⟨le_refl _, le_refl _, hlh, hhn, hva, not_lt.mp hlt⟩

/-- Counterexample to claim C7 as stated: in the profile with ascending
bin volumes `[3, 5, 3]`, starting from the POC bin (index 1, volume 5,
target 70% of 11 = 7.7), both neighbors are available with EQUAL volume 3,
yet the loop expands UPWARD to the band `[1, 2]`; tie-preference for the
lower-priced neighbor would instead produce the band `[0, 1]`. -/
theorem c7_counterexample :
    vaLoop [3, 5, 3] (77/10) 3 1 1 5 = (1, 2, 8) ∧
    vaLoop [3, 5, 3] (77/10) 3 1 1 5 ≠ (0, 1, 8) := by
  have h1 : vaLoop [3, 5, 3] (77/10) (2+1) 1 1 5 = vaLoop [3, 5, 3] (77/10) 2 1 2 8 := by
    simp only [vaLoop]
    norm_num [List.getD]
  have h2 : vaLoop [3, 5, 3] (77/10) (1+1) 1 2 8 = (1, 2, 8) := by
    simp only [vaLoop]
    norm_num
  have hval : vaLoop [3, 5, 3] (77/10) 3 1 1 5 = (1, 2, 8) := by
    show vaLoop [3, 5, 3] (77/10) (2+1) 1 1 5 = (1, 2, 8)
    rw [h1]
    exact h2
  refine ⟨hval, ?_⟩
  rw [hval]
  simp [Prod.ext_iff]

/-- Claim C7 (amended): at every step of the value-area expansion loop
with both neighbors available, the lower neighbor is added exactly when
its volume is STRICTLY greater than the higher neighbor's; otherwise —
including on ties — the loop expands to the higher-priced neighbor. -/
theorem c7_amended_tie_goes_up (vols : List ℚ) (target va : ℚ) (fuel low high : Nat)
    (hva : va < target) (hlow : 0 < low) (hhigh : high + 1 < vols.length) :
    vaLoop vols target (fuel + 1) low high va =
      (if vols.getD (high + 1) 0 < vols.getD (low - 1) 0 then
        vaLoop vols target fuel (low - 1) high (va + vols.getD (low - 1) 0)
      else
        vaLoop vols target fuel low (high + 1) (va + vols.getD (high + 1) 0)) := by
  simp only [vaLoop]
  rw [if_pos hva, if_pos hlow, if_pos hhigh]
  by_cases h : vols.getD (high + 1) 0 < vols.getD (low - 1) 0
  · rw [if_pos ⟨h, hlow⟩, if_pos h]
  · rw [if_neg (by
      intro hc
      exact h hc.1), if_pos hhigh, if_neg h]

/-- Witness for the amended C7 at the `[3, 5, 3]` tie: the step goes to
the higher neighbor. -/
theorem c7_amended_tie_goes_up_witness :
    vaLoop [3, 5, 3] (77/10) (2 + 1) 1 1 5 =
      (if ([3, 5, 3] : List ℚ).getD (1 + 1) 0 < ([3, 5, 3] : List ℚ).getD (1 - 1) 0 then
        vaLoop [3, 5, 3] (77/10) 2 (1 - 1) 1 (5 + ([3, 5, 3] : List ℚ).getD (1 - 1) 0)
      else
        vaLoop [3, 5, 3] (77/10) 2 1 (1 + 1) (5 + ([3, 5, 3] : List ℚ).getD (1 + 1) 0)) :=
  c7_amended_tie_goes_up [3, 5, 3] (77/10) 5 2 1 1 (by norm_num) (by norm_num) (by norm_num)

lemma sumValues_dictAdd (m : List (ℚ × ℚ)) (k v : ℚ) :
    sumValues (dictAdd m k v) = sumValues m + v := by
  induction m with
  | nil => simp [dictAdd, sumValues]
  | cons hd rest ih =>
    obtain ⟨k1, v1⟩ := hd
    by_cases hk : k1 = k
    · simp only [dictAdd, if_pos hk, sumValues, List.map_cons, List.sum_cons]
      ring
    · simp only [dictAdd, if_neg hk, sumValues, List.map_cons, List.sum_cons]
      simp only [sumValues] at ih
      rw [ih]
      ring

lemma dictAdd_ne_nil (m : List (ℚ × ℚ)) (k v : ℚ) : dictAdd m k v ≠ [] := by
  cases m with
  | nil => simp [dictAdd]
  | cons hd rest =>
    obtain ⟨k1, v1⟩ := hd
    by_cases hk : k1 = k
    · simp [dictAdd, hk]
    · simp [dictAdd, hk]

lemma mem_keys_dictAdd (m : List (ℚ × ℚ)) (k v x : ℚ)
    (h : x ∈ (dictAdd m k v).map Prod.fst) : x ∈ m.map Prod.fst ∨ x = k := by
  induction m with
  | nil =>
    right
    simpa [dictAdd] using h
  | cons hd rest ih =>
    obtain ⟨k1, v1⟩ := hd
    by_cases hk : k1 = k
    · left
      simpa [dictAdd, hk] using h
    · simp only [dictAdd, if_neg hk, List.map_cons, List.mem_cons] at h
      rcases h with h | h
      · left
        simp [h]
      · rcases ih h with h1 | h1
        · left
          simp [List.mem_cons, h1]
        · right
          exact h1

lemma nodup_keys_dictAdd (m : List (ℚ × ℚ)) (k v : ℚ)
    (h : (m.map Prod.fst).Nodup) : ((dictAdd m k v).map Prod.fst).Nodup := by
  induction m with
  | nil => simp [dictAdd]
  | cons hd rest ih =>
    obtain ⟨k1, v1⟩ := hd
    simp only [List.map_cons, List.nodup_cons] at h
    by_cases hk : k1 = k
    · simp only [dictAdd, if_pos hk, List.map_cons, List.nodup_cons]
      exact h
    · simp only [dictAdd, if_neg hk, List.map_cons, List.nodup_cons]
      refine ⟨?_, ih h.2⟩
      intro hmem
      rcases mem_keys_dictAdd rest k v k1 hmem with h1 | h1
      · exact h.1 h1
      · exact hk h1

lemma values_pos_dictAdd (m : List (ℚ × ℚ)) (k v : ℚ)
    (hm : ∀ w ∈ m.map Prod.snd, 0 < w) (hv : 0 < v) :
    ∀ w ∈ (dictAdd m k v).map Prod.snd, 0 < w := by
  induction m with
  | nil =>
    intro w hw
    simp only [dictAdd, List.map_cons, List.map_nil, List.mem_singleton] at hw
    rw [hw]
    exact hv
  | cons hd rest ih =>
    obtain ⟨k1, v1⟩ := hd
    have hv1 : 0 < v1 := hm v1 (by simp)
    have hrest : ∀ w ∈ rest.map Prod.snd, 0 < w := by
      intro w hw
      exact hm w (by simp [hw])
    by_cases hk : k1 = k
    · intro w hw
      simp only [dictAdd, if_pos hk, List.map_cons, List.mem_cons] at hw
      rcases hw with hw | hw
      · rw [hw]
        exact add_pos hv1 hv
      · exact hrest w hw
    · intro w hw
      simp only [dictAdd, if_neg hk, List.map_cons, List.mem_cons] at hw
      rcases hw with hw | hw
      · rw [hw]
        exact hv1
      · exact ih hrest w hw

lemma lookupD_mem (m : List (ℚ × ℚ)) (k : ℚ) (h : k ∈ m.map Prod.fst) :
    (k, lookupD m k 0) ∈ m := by
  induction m with
  | nil => simp at h
  | cons hd rest ih =>
    obtain ⟨k1, v1⟩ := hd
    by_cases hk : k1 = k
    · subst hk
      simp [lookupD]
    · simp only [List.map_cons, List.mem_cons] at h
      rcases h with h | h
      · exact absurd h.symm hk
      · simp only [lookupD, if_neg hk]
        exact List.mem_cons_of_mem _ (ih h)

lemma map_lookupD_keys (m : List (ℚ × ℚ)) (h : (m.map Prod.fst).Nodup) :
    (m.map Prod.fst).map (fun k => lookupD m k 0) = m.map Prod.snd := by
  induction m with
  | nil => simp
  | cons hd rest ih =>
    obtain ⟨k1, v1⟩ := hd
    simp only [List.map_cons, List.nodup_cons] at h
    simp only [List.map_cons]
    congr 1
    · simp [lookupD]
    · rw [List.map_congr_left (fun x hx => ?_), ih h.2]
      have hx1 : ¬ (k1 = x) := by
        intro he
        exact h.1 (he ▸ hx)
      simp [lookupD, hx1]

lemma binVols_perm_values (m : List (ℚ × ℚ)) (h : (m.map Prod.fst).Nodup) :
    (binVols m).Perm (m.map Prod.snd) := by
  unfold binVols sortedKeys
  have hperm := List.mergeSort_perm (m.map Prod.fst) (fun a b => a ≤ b)
  have := hperm.map (fun k => lookupD m k 0)
  rwa [map_lookupD_keys m h] at this

lemma binVols_sum (m : List (ℚ × ℚ)) (h : (m.map Prod.fst).Nodup) :
    (binVols m).sum = sumValues m :=
  (binVols_perm_values m h).sum_eq

lemma binVols_pos (m : List (ℚ × ℚ)) (h : (m.map Prod.fst).Nodup)
    (hpos : ∀ w ∈ m.map Prod.snd, 0 < w) : ∀ v ∈ binVols m, 0 < v := by
  intro v hv
  exact hpos v ((binVols_perm_values m h).mem_iff.mp hv)

/-- The key `k` is the first entry attaining the maximal value of the dict `m`, in
iteration (= insertion) order: exactly the key CPython's
`max(m, key=m.get)` returns. -/
def IsFirstArgmax (m : List (ℚ × ℚ)) (k : ℚ) : Prop :=
  ∃ pre v suf, m = pre ++ (k, v) :: suf ∧ (∀ p ∈ pre, p.2 < v) ∧ ∀ p ∈ m, p.2 ≤ v

lemma pocAux_spec (rest : List (ℚ × ℚ)) : ∀ bk bv : ℚ,
    IsFirstArgmax ((bk, bv) :: rest) (pocAux bk bv rest) := by
  induction rest with
  | nil =>
    intro bk bv
    exact ⟨[], bv, [], by simp [pocAux], by simp, by simp⟩
  | cons hd rest ih =>
    intro bk bv
    obtain ⟨k, v⟩ := hd
    by_cases hv : v > bv
    · simp only [pocAux, if_pos hv]
      obtain ⟨pre, w, suf, heq, hpre, hall⟩ := ih k v
      have hvw : v ≤ w := hall (k, v) (List.mem_cons_self _ _)
      refine ⟨(bk, bv) :: pre, w, suf, by rw [List.cons_append, ← heq], ?_, ?_⟩
      · intro p hp
        rcases List.mem_cons.mp hp with hp | hp
        · rw [hp]
          exact lt_of_lt_of_le hv hvw
        · exact hpre p hp
      · intro p hp
        rcases List.mem_cons.mp hp with hp | hp
        · rw [hp]
          exact le_of_lt (lt_of_lt_of_le hv hvw)
        · exact hall p hp
    · simp only [pocAux, if_neg hv]
      obtain ⟨pre, w, suf, heq, hpre, hall⟩ := ih bk bv
      cases pre with
      | nil =>
        simp only [List.nil_append] at heq
        injection heq with hhead htail
        injection hhead with hk hw
        refine ⟨[], bv, (k, v) :: rest, by rw [List.nil_append, ← hk], by simp, ?_⟩
        intro p hp
        rcases List.mem_cons.mp hp with hp | hp
        · simp [hp]
        · rcases List.mem_cons.mp hp with hp1 | hp1
          · rw [hp1]
            exact not_lt.mp hv
          · have := hall p (List.mem_cons_of_mem _ hp1)
            rw [← hw] at this
            exact this
      | cons q pre1 =>
        rw [List.cons_append] at heq
        injection heq with hq hrest
        subst hq
        have hbvw : bv < w := hpre (bk, bv) (List.mem_cons_self _ _)
        refine ⟨(bk, bv) :: (k, v) :: pre1, w, suf,
          by rw [List.cons_append, List.cons_append, ← hrest], ?_, ?_⟩
        · intro p hp
          rcases List.mem_cons.mp hp with hp | hp
          · rw [hp]
            exact hbvw
          · rcases List.mem_cons.mp hp with hp1 | hp1
            · rw [hp1]
              exact lt_of_le_of_lt (not_lt.mp hv) hbvw
            · exact hpre p (List.mem_cons_of_mem _ hp1)
        · intro p hp
          rcases List.mem_cons.mp hp with hp | hp
          · rw [hp]
            exact le_of_lt hbvw
          · rcases List.mem_cons.mp hp with hp1 | hp1
            · rw [hp1]
              exact le_of_lt (lt_of_le_of_lt (not_lt.mp hv) hbvw)
            · exact hall p (List.mem_cons_of_mem _ hp1)

lemma pocOf_isFirstArgmax (m : List (ℚ × ℚ)) (h : m ≠ []) :
    IsFirstArgmax m (pocOf m) := by
  cases m with
  | nil => exact absurd rfl h
  | cons hd rest =>
    obtain ⟨k, v⟩ := hd
    exact pocAux_spec rest k v

lemma isFirstArgmax_mem_keys (m : List (ℚ × ℚ)) (k : ℚ)
    (h : IsFirstArgmax m k) : k ∈ m.map Prod.fst := by
  obtain ⟨pre, v, suf, heq, _, _⟩ := h
  rw [heq]
  simp

lemma foldl_dictAdd_sum (a b : ℚ) (ts : List Trade) : ∀ m : List (ℚ × ℚ),
    sumValues (ts.foldl (fun m t => dictAdd m (binKey a b t.price) t.quantity) m) =
      sumValues m + (ts.map (fun t => t.quantity)).sum := by
  induction ts with
  | nil =>
    intro m
    simp
  | cons t ts ih =>
    intro m
    simp only [List.foldl_cons, List.map_cons, List.sum_cons]
    rw [ih (dictAdd m (binKey a b t.price) t.quantity), sumValues_dictAdd]
    ring

/-- Binning conserves volume: the per-bin volumes of the aggregation dict
sum to the total traded quantity. -/
lemma sumValues_buildDict (recent : List Trade) (a b : ℚ) :
    sumValues (buildDict recent a b) = (recent.map (fun t => t.quantity)).sum := by
  unfold buildDict
  rw [foldl_dictAdd_sum a b recent []]
  simp [sumValues]

lemma foldl_dictAdd_nodup (a b : ℚ) (ts : List Trade) : ∀ m : List (ℚ × ℚ),
    (m.map Prod.fst).Nodup →
    ((ts.foldl (fun m t => dictAdd m (binKey a b t.price) t.quantity) m).map Prod.fst).Nodup := by
  induction ts with
  | nil =>
    intro m hm
    simpa using hm
  | cons t ts ih =>
    intro m hm
    exact ih _ (nodup_keys_dictAdd m _ _ hm)

lemma buildDict_nodup (recent : List Trade) (a b : ℚ) :
    ((buildDict recent a b).map Prod.fst).Nodup :=
  foldl_dictAdd_nodup a b recent [] (by simp)

lemma foldl_dictAdd_values_pos (a b : ℚ) (ts : List Trade) : ∀ m : List (ℚ × ℚ),
    (∀ t ∈ ts, 0 < t.quantity) → (∀ w ∈ m.map Prod.snd, 0 < w) →
    ∀ w ∈ ((ts.foldl (fun m t => dictAdd m (binKey a b t.price) t.quantity) m)).map Prod.snd,
      0 < w := by
  induction ts with
  | nil =>
    intro m _ hm
    simpa using hm
  | cons t ts ih =>
    intro m hq hm
    exact ih _ (fun t1 ht1 => hq t1 (List.mem_cons_of_mem _ ht1))
      (values_pos_dictAdd m _ _ hm (hq t (List.mem_cons_self _ _)))

lemma buildDict_values_pos (recent : List Trade) (a b : ℚ)
    (hq : ∀ t ∈ recent, 0 < t.quantity) :
    ∀ w ∈ (buildDict recent a b).map Prod.snd, 0 < w :=
  foldl_dictAdd_values_pos a b recent [] hq (by simp)

lemma foldl_dictAdd_ne_nil (a b : ℚ) (ts : List Trade) : ∀ m : List (ℚ × ℚ),
    m ≠ [] →
    (ts.foldl (fun m t => dictAdd m (binKey a b t.price) t.quantity) m) ≠ [] := by
  induction ts with
  | nil =>
    intro m hm
    simpa using hm
  | cons t ts ih =>
    intro m hm
    exact ih _ (dictAdd_ne_nil m _ _)

lemma buildDict_ne_nil (recent : List Trade) (a b : ℚ) (h : recent ≠ []) :
    buildDict recent a b ≠ [] := by
  cases recent with
  | nil => exact absurd rfl h
  | cons t ts =>
    unfold buildDict
    rw [List.foldl_cons]
    exact foldl_dictAdd_ne_nil a b ts _ (dictAdd_ne_nil [] _ _)

/-- Characterization of a completed `build_profile` call: the window was
non-empty and the returned dict's fields are exactly the aggregation dict,
its first-argmax POC, the value-area pair, and the total volume. -/
lemma buildProfile_ok_inv (cfg : BotConfig) (trades : List Trade) (cutoff : ℤ)
    (pr : ProfileResult) (h : buildProfile cfg trades cutoff = .ok (some pr)) :
    recentTrades trades cutoff ≠ [] ∧
    ∃ bin_size,
      pr.profile = buildDict (recentTrades trades cutoff)
        (listMin ((recentTrades trades cutoff).map (fun t => t.price))) bin_size ∧
      pr.poc = pocOf pr.profile ∧
      (pr.value_area_low, pr.value_area_high) = calcValueArea cfg pr.profile pr.poc ∧
      pr.total_volume = sumValues pr.profile := by
  simp only [buildProfile] at h
  split at h
  · simp at h
  · rename_i hne
    split at h
    · simp at h
    · split at h
      · simp at h
      · simp only [Except.ok.injEq, Option.some.injEq] at h
        subst h
        exact ⟨hne, _, rfl, rfl, rfl, rfl⟩

/-- Core value-area lemma, at the level of `_calculate_value_area`: for a
non-empty profile dict with distinct keys, positive volumes and a
percentage ≤ 100, the returned band is a contiguous index range of bins
containing the POC bin, whose cumulative volume reaches the target. -/
lemma calcValueArea_spec (cfg : BotConfig) (profile : List (ℚ × ℚ))
    (hne : profile ≠ []) (hnodup : (profile.map Prod.fst).Nodup)
    (hpos : ∀ w ∈ profile.map Prod.snd, 0 < w)
    (hpct : cfg.VP_VALUE_AREA_PERCENT ≤ 100) :
    ∃ lo hi, lo ≤ List.indexOf (pocOf profile) (sortedKeys profile) ∧
      List.indexOf (pocOf profile) (sortedKeys profile) ≤ hi ∧
      hi < (binVols profile).length ∧
      calcValueArea cfg profile (pocOf profile) =
        ((sortedKeys profile).getD lo 0, (sortedKeys profile).getD hi 0) ∧
      sumValues profile * (cfg.VP_VALUE_AREA_PERCENT / 100) ≤
        rangeSum (binVols profile) lo hi := by
  have hmemk : pocOf profile ∈ profile.map Prod.fst :=
    isFirstArgmax_mem_keys profile (pocOf profile) (pocOf_isFirstArgmax profile hne)
  have hmems : pocOf profile ∈ sortedKeys profile := by
    unfold sortedKeys
    exact (List.mergeSort_perm (profile.map Prod.fst) _).mem_iff.mpr hmemk
  have hpidx : List.indexOf (pocOf profile) (sortedKeys profile) <
      (sortedKeys profile).length := List.indexOf_lt_length.mpr hmems
  have hlen : (binVols profile).length = (sortedKeys profile).length := by
    unfold binVols
    exact List.length_map _ _
  have hpidx1 : List.indexOf (pocOf profile) (sortedKeys profile) <
      (binVols profile).length := by omega
  have hkey : (sortedKeys profile).get
      ⟨List.indexOf (pocOf profile) (sortedKeys profile), hpidx⟩ = pocOf profile :=
    List.indexOf_get hpidx
  have hva0 : lookupD profile (pocOf profile) 0 =
      (binVols profile).getD (List.indexOf (pocOf profile) (sortedKeys profile)) 0 := by
    unfold binVols
    have hpidx2 : List.indexOf (pocOf profile) (sortedKeys profile) <
        (List.map (fun p => lookupD profile p 0) (sortedKeys profile)).length := by
      rw [List.length_map]
      exact hpidx
    rw [List.getD_eq_getElem _ 0 hpidx2, List.getElem_map]
    congr 1
    rw [List.get_eq_getElem] at hkey
    exact hkey.symm
  have hposv : ∀ v ∈ binVols profile, 0 < v := binVols_pos profile hnodup hpos
  have htotal0 : 0 ≤ sumValues profile := by
    unfold sumValues
    exact List.sum_nonneg (fun x hx => le_of_lt (hpos x hx))
  have htarget : sumValues profile * (cfg.VP_VALUE_AREA_PERCENT / 100) ≤
      (binVols profile).sum := by
    rw [binVols_sum profile hnodup]
    have : cfg.VP_VALUE_AREA_PERCENT / 100 ≤ 1 := by linarith
    exact mul_le_of_le_one_right htotal0 this
  have hgood := vaLoop_spec (binVols profile)
    (sumValues profile * (cfg.VP_VALUE_AREA_PERCENT / 100)) hposv htarget
    (binVols profile).length
    (List.indexOf (pocOf profile) (sortedKeys profile))
    (List.indexOf (pocOf profile) (sortedKeys profile))
    (lookupD profile (pocOf profile) 0)
    (by omega) (le_refl _) hpidx1
    (by rw [hva0, rangeSum_single _ _ hpidx1])
  obtain ⟨g1, g2, g3, g4, g5, g6⟩ := hgood
  refine ⟨_, _, g1, g2, g4, ?_, ?_⟩
  · simp only [calcValueArea, if_neg hne]
  · rw [← g5]
    exact g6

/-- When the window is non-empty with at least two distinct prices and a
positive bin count, `build_profile` completes (neither the empty-window
early return nor a crash). -/
lemma buildProfile_completes (cfg : BotConfig) (trades : List Trade) (cutoff : ℤ)
    (hne : recentTrades trades cutoff ≠ [])
    (hd : listMin ((recentTrades trades cutoff).map (fun t => t.price)) <
      listMax ((recentTrades trades cutoff).map (fun t => t.price)))
    (hbins : cfg.VP_PRICE_BINS ≠ 0) :
    ∃ pr, buildProfile cfg trades cutoff = .ok (some pr) := by
  simp only [buildProfile]
  rw [if_neg hne, if_neg hbins]
  have hbs : (listMax ((recentTrades trades cutoff).map (fun t => t.price)) -
      listMin ((recentTrades trades cutoff).map (fun t => t.price))) /
      ((cfg.VP_PRICE_BINS : ℕ) : ℚ) ≠ 0 := by
    apply div_ne_zero
    · intro h0
      have : listMax ((recentTrades trades cutoff).map (fun t => t.price)) =
          listMin ((recentTrades trades cutoff).map (fun t => t.price)) := by
        linarith [sub_eq_zero.mp h0]
      linarith
    · exact Nat.cast_ne_zero.mpr hbins
  rw [if_neg hbs]
  exact ⟨_, rfl⟩

/-- Claim C8: when `build_profile` completes on a non-empty window with at
least two distinct prices, the per-bin volumes of the returned profile sum
to the total quantity of the window's trades — binning conserves volume. -/
theorem c8_binning_conserves_volume (cfg : BotConfig) (trades : List Trade) (cutoff : ℤ)
    (hne : recentTrades trades cutoff ≠ [])
    (hd : listMin ((recentTrades trades cutoff).map (fun t => t.price)) <
      listMax ((recentTrades trades cutoff).map (fun t => t.price)))
    (hbins : cfg.VP_PRICE_BINS ≠ 0) :
    ∃ pr, buildProfile cfg trades cutoff = .ok (some pr) ∧
      sumValues pr.profile =
        ((recentTrades trades cutoff).map (fun t => t.quantity)).sum := by
  obtain ⟨pr, hpr⟩ := buildProfile_completes cfg trades cutoff hne hd hbins
  obtain ⟨-, bs, hprof, -, -, -⟩ := buildProfile_ok_inv cfg trades cutoff pr hpr
  exact ⟨pr, hpr, by rw [hprof, sumValues_buildDict]⟩

/-- Claim C5 (with the implicit well-formedness of real trade data made
explicit: positive trade quantities, a value-area percentage ≤ 100, and a
window on which the profile builds): the value area is a contiguous index
band of bins `[lo, hi]` containing the POC bin, whose cumulative volume is
at least `VP_VALUE_AREA_PERCENT` of the total profile volume. -/
theorem c5_value_area_reaches_target (cfg : BotConfig) (trades : List Trade) (cutoff : ℤ)
    (hq : ∀ t ∈ trades, 0 < t.quantity) (hpct : cfg.VP_VALUE_AREA_PERCENT ≤ 100)
    (hne : recentTrades trades cutoff ≠ [])
    (hd : listMin ((recentTrades trades cutoff).map (fun t => t.price)) <
      listMax ((recentTrades trades cutoff).map (fun t => t.price)))
    (hbins : cfg.VP_PRICE_BINS ≠ 0) :
    ∃ pr, buildProfile cfg trades cutoff = .ok (some pr) ∧
      ∃ lo hi, lo ≤ List.indexOf pr.poc (sortedKeys pr.profile) ∧
        List.indexOf pr.poc (sortedKeys pr.profile) ≤ hi ∧
        hi < (binVols pr.profile).length ∧
        pr.value_area_low = (sortedKeys pr.profile).getD lo 0 ∧
        pr.value_area_high = (sortedKeys pr.profile).getD hi 0 ∧
        pr.total_volume * (cfg.VP_VALUE_AREA_PERCENT / 100) ≤
          rangeSum (binVols pr.profile) lo hi := by
  obtain ⟨pr, hpr⟩ := buildProfile_completes cfg trades cutoff hne hd hbins
  obtain ⟨hrne, bs, hprof, hpoc, hva, htot⟩ := buildProfile_ok_inv cfg trades cutoff pr hpr
  have hnodup : (pr.profile.map Prod.fst).Nodup := by
    rw [hprof]
    exact buildDict_nodup _ _ _
  have hposv : ∀ w ∈ pr.profile.map Prod.snd, 0 < w := by
    rw [hprof]
    exact buildDict_values_pos _ _ _ (fun t ht => hq t (List.mem_of_mem_filter ht))
  have hpne : pr.profile ≠ [] := by
    rw [hprof]
    exact buildDict_ne_nil _ _ _ hrne
  obtain ⟨lo, hi, h1, h2, h3, h4, h5⟩ :=
    calcValueArea_spec cfg pr.profile hpne hnodup hposv hpct
  rw [← hpoc] at h1 h2 h4
  rw [h4] at hva
  refine ⟨pr, hpr, lo, hi, h1, h2, h3, ?_, ?_, ?_⟩
  · exact congrArg Prod.fst hva
  · exact congrArg Prod.snd hva
  · rw [htot]
    exact h5

/-- Claim C6 (amended): the POC of a built profile is a maximal-volume
bin, but ties are broken by FIRST INSERTION order of the bins (the order
in which trades first touched them), not by lowest price. -/
theorem c6_amended_poc_first_argmax (cfg : BotConfig) (trades : List Trade) (cutoff : ℤ)
    (hne : recentTrades trades cutoff ≠ [])
    (hd : listMin ((recentTrades trades cutoff).map (fun t => t.price)) <
      listMax ((recentTrades trades cutoff).map (fun t => t.price)))
    (hbins : cfg.VP_PRICE_BINS ≠ 0) :
    ∃ pr, buildProfile cfg trades cutoff = .ok (some pr) ∧
      IsFirstArgmax pr.profile pr.poc := by
  obtain ⟨pr, hpr⟩ := buildProfile_completes cfg trades cutoff hne hd hbins
  obtain ⟨hrne, bs, hprof, hpoc, -, -⟩ := buildProfile_ok_inv cfg trades cutoff pr hpr
  have hpne : pr.profile ≠ [] := by
    rw [hprof]
    exact buildDict_ne_nil _ _ _ hrne
  refine ⟨pr, hpr, ?_⟩
  rw [hpoc]
  exact pocOf_isFirstArgmax pr.profile hpne

/-- Witness for C5 at a concrete two-trade window (prices 5 and 7,
quantities 2 and 3). -/
theorem c5_value_area_reaches_target_witness :
    ∃ pr, buildProfile defConfig [⟨1, 5, 2⟩, ⟨1, 7, 3⟩] 0 = .ok (some pr) ∧
      ∃ lo hi, lo ≤ List.indexOf pr.poc (sortedKeys pr.profile) ∧
        List.indexOf pr.poc (sortedKeys pr.profile) ≤ hi ∧
        hi < (binVols pr.profile).length ∧
        pr.value_area_low = (sortedKeys pr.profile).getD lo 0 ∧
        pr.value_area_high = (sortedKeys pr.profile).getD hi 0 ∧
        pr.total_volume * (defConfig.VP_VALUE_AREA_PERCENT / 100) ≤
          rangeSum (binVols pr.profile) lo hi :=
  c5_value_area_reaches_target defConfig [⟨1, 5, 2⟩, ⟨1, 7, 3⟩] 0
    (by decide) (by decide) (by decide) (by decide) (by decide)

/-- Witness for C8 at the same concrete window. -/
theorem c8_binning_conserves_volume_witness :
    ∃ pr, buildProfile defConfig [⟨2, 5, 2⟩, ⟨2, 7, 3⟩] 0 = .ok (some pr) ∧
      sumValues pr.profile =
        ((recentTrades [⟨2, 5, 2⟩, ⟨2, 7, 3⟩] 0).map (fun t => t.quantity)).sum :=
  c8_binning_conserves_volume defConfig [⟨2, 5, 2⟩, ⟨2, 7, 3⟩] 0
    (by decide) (by decide) (by decide)

/-- Witness for the amended C6 at a concrete window. -/
theorem c6_amended_poc_first_argmax_witness :
    ∃ pr, buildProfile defConfig [⟨3, 5, 2⟩, ⟨3, 7, 3⟩] 0 = .ok (some pr) ∧
      IsFirstArgmax pr.profile pr.poc :=
  c6_amended_poc_first_argmax defConfig [⟨3, 5, 2⟩, ⟨3, 7, 3⟩] 0
    (by decide) (by decide) (by decide)

/-- Counterexample to claim C6 as stated: two trades of equal quantity 1,
the FIRST at price 10 and the second at price 0, produce bins 10 and 0
tied at volume 1.  The lowest-priced tied bin is 0, yet the computed POC
is 10 — `max(d, key=d.get)` keeps the first maximal entry in the dict's
insertion order (the order trades first touched the bins), not in
ascending key order. -/
theorem c6_counterexample :
    buildProfile defConfig [⟨1, 10, 1⟩, ⟨1, 0, 1⟩] 0 =
      .ok (some ⟨[(10, 1), (0, 1)], 10, 10, 0, 2⟩) ∧
    lookupD [((10 : ℚ), (1 : ℚ)), (0, 1)] 0 0 =
      lookupD [((10 : ℚ), (1 : ℚ)), (0, 1)] 10 0 ∧
    (0 : ℚ) < 10 := by
  have hmin : listMin ((recentTrades [⟨1, 10, 1⟩, ⟨1, 0, 1⟩] 0).map (fun t => t.price)) = 0 := by
    decide
  have hmax : listMax ((recentTrades [⟨1, 10, 1⟩, ⟨1, 0, 1⟩] 0).map (fun t => t.price)) = 10 := by
    decide
  have hrec : recentTrades [⟨1, 10, 1⟩, ⟨1, 0, 1⟩] 0 = [⟨1, 10, 1⟩, ⟨1, 0, 1⟩] := by
    decide
  have hb1 : binKey 0 (1/10) 10 = 10 := by
    norm_num [binKey]
  have hb2 : binKey 0 (1/10) 0 = 0 := by
    norm_num [binKey]
  have hdict : buildDict [⟨1, 10, 1⟩, ⟨1, 0, 1⟩] 0 (1/10) = [(10, 1), (0, 1)] := by
    simp only [buildDict, List.foldl_cons, List.foldl_nil, hb1, hb2]
    norm_num [dictAdd]
  have hpoc : pocOf [((10 : ℚ), (1 : ℚ)), (0, 1)] = 10 := by
    decide
  have hsort : sortedKeys [((10 : ℚ), (1 : ℚ)), (0, 1)] = [0, 10] := by
    simp [sortedKeys, List.mergeSort, List.merge]
  have hidx : List.indexOf (10 : ℚ) [0, 10] = 1 := by
    decide
  have hvols : binVols [((10 : ℚ), (1 : ℚ)), (0, 1)] = [1, 1] := by
    simp only [binVols, hsort, List.map_cons, List.map_nil]
    norm_num [lookupD]
  have hsum : sumValues [((10 : ℚ), (1 : ℚ)), (0, 1)] = 2 := by
    norm_num [sumValues]
  have hlook : lookupD [((10 : ℚ), (1 : ℚ)), (0, 1)] 10 0 = 1 := by
    decide
  have htgt : (2 : ℚ) * (defConfig.VP_VALUE_AREA_PERCENT / 100) = 7/5 := by
    norm_num [defConfig]
  have hl1 : vaLoop [1, 1] (7/5) (([1, 1] : List ℚ).length) 1 1 1 =
      vaLoop [1, 1] (7/5) 1 0 1 2 := by
    show vaLoop [1, 1] (7/5) (1 + 1) 1 1 1 = vaLoop [1, 1] (7/5) 1 0 1 2
    simp only [vaLoop]
    norm_num [List.getD]
  have hl2 : vaLoop [1, 1] (7/5) 1 0 1 2 = (0, 1, 2) := by
    show vaLoop [1, 1] (7/5) (0 + 1) 0 1 2 = (0, 1, 2)
    simp only [vaLoop]
    norm_num
  have hcva : calcValueArea defConfig [((10 : ℚ), (1 : ℚ)), (0, 1)] 10 = (0, 10) := by
    simp only [calcValueArea]
    rw [if_neg (by decide : ¬([((10 : ℚ), (1 : ℚ)), (0, 1)] = ([] : List (ℚ × ℚ))))]
    rw [hsort, hidx, hvols, hsum, hlook, htgt, hl1, hl2]
    decide
  have hmain : buildProfile defConfig [⟨1, 10, 1⟩, ⟨1, 0, 1⟩] 0 =
      .ok (some ⟨[(10, 1), (0, 1)], 10, 10, 0, 2⟩) := by
    simp only [buildProfile]
    rw [if_neg (by decide : ¬(recentTrades [⟨1, 10, 1⟩, ⟨1, 0, 1⟩] 0 = []))]
    rw [if_neg (by decide : ¬(defConfig.VP_PRICE_BINS = 0))]
    rw [show (listMax ((recentTrades [⟨1, 10, 1⟩, ⟨1, 0, 1⟩] 0).map (fun t => t.price)) -
        listMin ((recentTrades [⟨1, 10, 1⟩, ⟨1, 0, 1⟩] 0).map (fun t => t.price))) /
        ((defConfig.VP_PRICE_BINS : ℕ) : ℚ) = 1/10 from by
      rw [hmin, hmax]
      norm_num [defConfig]]
    rw [if_neg (by norm_num : ¬((1 : ℚ)/10 = 0))]
    rw [hmin, hrec, hdict, hpoc, hcva, hsum]
  exact ⟨hmain, by decide, by decide⟩

/-- Output of `MarketConditionAnalyzer.analyze_conditions`, together with
the analyzer fields (`current_regime`, `volatility_state`) it sets as a
side effect and that `should_trade_in_current_conditions` later reads. -/
structure MarketConditionsRes where
  regime : String
  volatility : String
  is_tradeable : Bool
  warnings : List String
  deriving DecidableEq

/-- Output of `EnhancedOrderFlowStrategy._analyze_moving_averages`. -/
structure MASignal where
  signal : String
  strength : ℚ
  description : String
  deriving DecidableEq

/-- Output of `VolumeProfile.get_support_resistance`. -/
structure SRLevels where
  support : List ℚ
  resistance : List ℚ
  deriving DecidableEq

/-- Output of `DeltaDivergenceDetector.detect_divergence`. -/
structure DivergenceRes where
  dtype : String
  strength : ℚ
  description : String
  deriving DecidableEq

/-- Output of `EnhancedOrderFlowStrategy._analyze_orderflow`. -/
structure OrderflowRes where
  bias : String
  strength : ℚ
  reasons : List String
  deriving DecidableEq

/-- Entries of the signal's `reasons` list, as structured values: each
constructor corresponds to one `append` site in `analyze_market`
(abstracting only the f-string formatting of the text). -/
inductive Reason where
  | notTradeable (warnings : List String)
  | maDesc (s : String)
  | atSupport (p : ℚ)
  | atResistance (p : ℚ)
  | divDesc (s : String)
  | orderflowNote (s : String)
  | gateRejected (s : String)
  deriving DecidableEq

/-- The signal dict built by `EnhancedOrderFlowStrategy.analyze_market`. -/
structure Signal where
  bias : String
  strength : ℚ
  reasons : List Reason
  action : String
  entry_price : ℚ
  stop_loss : ℚ
  take_profit : ℚ
  deriving DecidableEq

/-- The signal dict as initialized at the top of `analyze_market`
(enhanced_strategy.py lines 33-43). -/
def initialSignal : Signal := ⟨"neutral", 0, [], "wait", 0, 0, 0⟩

/-- Model of `MarketConditionAnalyzer.should_trade_in_current_conditions`
(market_conditions.py lines 150-174), reading the regime and volatility
state recorded by the step-1 `analyze_conditions` call. -/
def shouldTradeInCurrentConditions (cfg : BotConfig) (regime volatility signal_bias : String) :
    Bool × String :=
  if regime = "ranging" then
    (false, "Market is ranging - avoid directional trades")
  else if cfg.REQUIRE_TREND_CONFIRMATION = true ∧ signal_bias = "bullish" ∧
      regime = "trending_down" then
    (false, "Bullish signal against downtrend")
  else if cfg.REQUIRE_TREND_CONFIRMATION = true ∧ signal_bias = "bearish" ∧
      regime = "trending_up" then
    (false, "Bearish signal against uptrend")
  else if volatility = "extreme" then
    (false, "Volatility too high - risk of whipsaw")
  else
    (true, "Market conditions favorable")

/-- One guarded accumulation step of `analyze_market` steps 2-4: under its
condition it adds strength, appends one reason, and fills a still-neutral
bias (the "first non-neutral contributor wins" rule). -/
def addComponent (s : Signal) (cond : Prop) [Decidable cond] (dstrength : ℚ)
    (r : Reason) (newBias : String) : Signal :=
  if cond then
    { s with strength := s.strength + dstrength,
             reasons := s.reasons ++ [r],
             bias := if s.bias = "neutral" then newBias else s.bias }
  else s

/-- Steps 2-5 of `analyze_market` (enhanced_strategy.py lines 53-104):
moving averages, volume-profile support/resistance, delta divergence and
order flow accumulate strength, reasons, and the first-non-neutral bias. -/
def fuseComponents (maSignal : MASignal) (sr : SRLevels) (current_price : ℚ)
    (divergence : DivergenceRes) (orderflow : OrderflowRes) : Signal :=
  let s1 := addComponent initialSignal (maSignal.signal ≠ "none") maSignal.strength
    (Reason.maDesc maSignal.description) maSignal.signal
  let s2 := addComponent s1
    (sr.support ≠ [] ∧ |current_price - sr.support.headD 0| / current_price < 5/1000)
    15 (Reason.atSupport (sr.support.headD 0)) "bullish"
  let s3 := addComponent s2
    (sr.resistance ≠ [] ∧ |current_price - sr.resistance.headD 0| / current_price < 5/1000)
    15 (Reason.atResistance (sr.resistance.headD 0)) "bearish"
  let s4 := addComponent s3 (divergence.dtype ≠ "none")
    ((⌊divergence.strength / 2⌋ : ℤ) : ℚ) (Reason.divDesc divergence.description)
    divergence.dtype
  let s5 := { s4 with strength := s4.strength + orderflow.strength,
                      reasons := s4.reasons ++ orderflow.reasons.map Reason.orderflowNote }
  if s5.bias = "neutral" ∧ orderflow.bias ≠ "neutral" then
    { s5 with bias := orderflow.bias }
  else s5

/-- A guarded accumulation step does not change the action. -/
lemma addComponent_action (s : Signal) (cond : Prop) [Decidable cond] (dstrength : ℚ)
    (r : Reason) (newBias : String) :
    (addComponent s cond dstrength r newBias).action = s.action := by
  unfold addComponent
  split_ifs <;> rfl

/-- A guarded accumulation step whose reason is not a gate rejection keeps
the reasons list free of gate rejections. -/
lemma addComponent_no_gate (s : Signal) (cond : Prop) [Decidable cond] (dstrength : ℚ)
    (r : Reason) (newBias : String) (hr : ∀ x, r ≠ Reason.gateRejected x)
    (h : ∀ x, Reason.gateRejected x ∉ s.reasons) :
    ∀ x, Reason.gateRejected x ∉ (addComponent s cond dstrength r newBias).reasons := by
  intro x hmem
  unfold addComponent at hmem
  by_cases hc : cond
  · rw [if_pos hc] at hmem
    have hmem2 : Reason.gateRejected x ∈ s.reasons ++ [r] := hmem
    rcases List.mem_append.mp hmem2 with hm | hm
    · exact h x hm
    · exact hr x (List.mem_singleton.mp hm).symm
  · rw [if_neg hc] at hmem
    exact h x hmem

/-- Step 6 of `analyze_market` (enhanced_strategy.py lines 106-128): the
final decision.  Note that the stop/target branch tests the action just
assigned, so a neutral bias that passes the gate keeps action `wait` but
still receives the sell-side stop/target — modelled faithfully. -/
def finalDecision (cfg : BotConfig) (regime volatility : String) (current_price : ℚ)
    (s : Signal) : Signal :=
  if s.strength ≥ cfg.MIN_SIGNAL_STRENGTH then
    let st := shouldTradeInCurrentConditions cfg regime volatility s.bias
    if st.1 = true then
      let act := if s.bias = "bullish" then "buy"
                 else if s.bias = "bearish" then "sell" else s.action
      let s1 := { s with action := act, entry_price := current_price }
      if s1.action = "buy" then
        { s1 with stop_loss := current_price * (1 - cfg.STOP_LOSS_PERCENT / 100),
                  take_profit := current_price * (1 + cfg.TAKE_PROFIT_PERCENT / 100) }
      else
        { s1 with stop_loss := current_price * (1 + cfg.STOP_LOSS_PERCENT / 100),
                  take_profit := current_price * (1 - cfg.TAKE_PROFIT_PERCENT / 100) }
    else
      { s with reasons := s.reasons ++ [Reason.gateRejected st.2] }
  else s

/-- Model of `EnhancedOrderFlowStrategy.analyze_market` (enhanced_strategy.py lines
29-130) as a function of the component results it queries.  The `.error`
case models the `ZeroDivisionError` of the step-3 proximity checks when
`current_price` is 0 and a support or resistance level exists. -/
def analyzeMarket (cfg : BotConfig) (conditions : MarketConditionsRes) (maSignal : MASignal)
    (sr : SRLevels) (current_price : ℚ) (divergence : DivergenceRes)
    (orderflow : OrderflowRes) : Except Unit Signal :=
  if conditions.is_tradeable = false then
    .ok { initialSignal with reasons := [Reason.notTradeable conditions.warnings] }
  else if current_price = 0 ∧ (sr.support ≠ [] ∨ sr.resistance ≠ []) then
    .error ()
  else
    .ok (finalDecision cfg conditions.regime conditions.volatility current_price
          (fuseComponents maSignal sr current_price divergence orderflow))

/-- Steps 2-5 never touch the action: the fused signal still says `wait`. -/
lemma fuseComponents_action (maSignal : MASignal) (sr : SRLevels) (current_price : ℚ)
    (divergence : DivergenceRes) (orderflow : OrderflowRes) :
    (fuseComponents maSignal sr current_price divergence orderflow).action = "wait" := by
  simp only [fuseComponents]
  split_ifs <;> simp [addComponent_action, initialSignal]

/-- Steps 2-5 never append a gate-rejection reason. -/
lemma fuseComponents_no_gateRejected (maSignal : MASignal) (sr : SRLevels)
    (current_price : ℚ) (divergence : DivergenceRes) (orderflow : OrderflowRes) (r : String) :
    Reason.gateRejected r ∉
      (fuseComponents maSignal sr current_price divergence orderflow).reasons := by
  have hchain : ∀ x, Reason.gateRejected x ∉
      (addComponent (addComponent (addComponent (addComponent initialSignal
          (maSignal.signal ≠ "none") maSignal.strength
          (Reason.maDesc maSignal.description) maSignal.signal)
        (sr.support ≠ [] ∧ |current_price - sr.support.headD 0| / current_price < 5/1000)
        15 (Reason.atSupport (sr.support.headD 0)) "bullish")
        (sr.resistance ≠ [] ∧
          |current_price - sr.resistance.headD 0| / current_price < 5/1000)
        15 (Reason.atResistance (sr.resistance.headD 0)) "bearish")
        (divergence.dtype ≠ "none") ((⌊divergence.strength / 2⌋ : ℤ) : ℚ)
        (Reason.divDesc divergence.description) divergence.dtype).reasons := by
    apply addComponent_no_gate _ _ _ _ _ (by intro y; simp)
    apply addComponent_no_gate _ _ _ _ _ (by intro y; simp)
    apply addComponent_no_gate _ _ _ _ _ (by intro y; simp)
    apply addComponent_no_gate _ _ _ _ _ (by intro y; simp)
    intro x hx
    simp [initialSignal] at hx
  simp only [fuseComponents]
  split_ifs <;>
  · intro hmem
    simp only [List.mem_append] at hmem
    rcases hmem with hm | hm
    · exact hchain r hm
    · rcases List.mem_map.mp hm with ⟨a, -, ha⟩
      exact absurd ha (by simp)

/-- The final decision never changes the accumulated strength. -/
lemma finalDecision_strength (cfg : BotConfig) (regime volatility : String)
    (current_price : ℚ) (s : Signal) :
    (finalDecision cfg regime volatility current_price s).strength = s.strength := by
  simp only [finalDecision]
  split_ifs <;> rfl

/-- The final decision never changes the bias. -/
lemma finalDecision_bias (cfg : BotConfig) (regime volatility : String)
    (current_price : ℚ) (s : Signal) :
    (finalDecision cfg regime volatility current_price s).bias = s.bias := by
  simp only [finalDecision]
  split_ifs <;> rfl

/-- Below the strength threshold the final decision is the identity. -/
lemma finalDecision_low (cfg : BotConfig) (regime volatility : String)
    (current_price : ℚ) (s : Signal) (h : ¬ s.strength ≥ cfg.MIN_SIGNAL_STRENGTH) :
    finalDecision cfg regime volatility current_price s = s := by
  simp only [finalDecision]
  rw [if_neg h]

/-- When the market-condition gate rejects, only the rejection reason is
appended. -/
lemma finalDecision_reject (cfg : BotConfig) (regime volatility : String)
    (current_price : ℚ) (s : Signal) (h1 : s.strength ≥ cfg.MIN_SIGNAL_STRENGTH)
    (h2 : (shouldTradeInCurrentConditions cfg regime volatility s.bias).1 = false) :
    finalDecision cfg regime volatility current_price s =
      { s with reasons := s.reasons ++
          [Reason.gateRejected
            (shouldTradeInCurrentConditions cfg regime volatility s.bias).2] } := by
  simp only [finalDecision]
  rw [if_pos h1, if_neg (by rw [h2]; exact Bool.false_ne_true)]

/-- An action of buy or sell can only come from the approved branch. -/
lemma finalDecision_action_imp (cfg : BotConfig) (regime volatility : String)
    (current_price : ℚ) (s : Signal) (hw : s.action = "wait")
    (h : (finalDecision cfg regime volatility current_price s).action = "buy" ∨
         (finalDecision cfg regime volatility current_price s).action = "sell") :
    s.strength ≥ cfg.MIN_SIGNAL_STRENGTH ∧
      (shouldTradeInCurrentConditions cfg regime volatility s.bias).1 = true := by
  by_cases h1 : s.strength ≥ cfg.MIN_SIGNAL_STRENGTH
  · by_cases h2 : (shouldTradeInCurrentConditions cfg regime volatility s.bias).1 = true
    · exact ⟨h1, h2⟩
    · rw [finalDecision_reject cfg regime volatility current_price s h1
        (by simpa using h2)] at h
      simp only [hw] at h
      rcases h with h | h <;> simp at h
  · rw [finalDecision_low cfg regime volatility current_price s h1, hw] at h
    rcases h with h | h <;> simp at h

/-- Claim C3 (amended): the returned action is buy/sell only when the
accumulated strength reaches `MIN_SIGNAL_STRENGTH` and the market
condition gate approves the signal's bias; in every other case the action
stays `wait` — but a rejection reason is appended only in the
not-tradeable and gate-rejected cases, NOT when the strength is below the
threshold. -/
theorem c3_final_decision (cfg : BotConfig) (conditions : MarketConditionsRes)
    (maSignal : MASignal) (sr : SRLevels) (current_price : ℚ)
    (divergence : DivergenceRes) (orderflow : OrderflowRes) (sig : Signal)
    (h : analyzeMarket cfg conditions maSignal sr current_price divergence orderflow =
      .ok sig) :
    ((sig.action = "buy" ∨ sig.action = "sell") →
        cfg.MIN_SIGNAL_STRENGTH ≤ sig.strength ∧
        (shouldTradeInCurrentConditions cfg conditions.regime conditions.volatility
          sig.bias).1 = true) ∧
    (conditions.is_tradeable = false →
        sig.action = "wait" ∧ sig.reasons = [Reason.notTradeable conditions.warnings]) ∧
    (conditions.is_tradeable = true →
        (fuseComponents maSignal sr current_price divergence orderflow).strength <
          cfg.MIN_SIGNAL_STRENGTH →
        sig.action = "wait" ∧ ∀ r, Reason.gateRejected r ∉ sig.reasons) ∧
    (conditions.is_tradeable = true →
        cfg.MIN_SIGNAL_STRENGTH ≤
          (fuseComponents maSignal sr current_price divergence orderflow).strength →
        (shouldTradeInCurrentConditions cfg conditions.regime conditions.volatility
          (fuseComponents maSignal sr current_price divergence orderflow).bias).1 = false →
        sig.action = "wait" ∧
          Reason.gateRejected (shouldTradeInCurrentConditions cfg conditions.regime
            conditions.volatility
            (fuseComponents maSignal sr current_price divergence orderflow).bias).2 ∈
            sig.reasons) := by
  by_cases ht : conditions.is_tradeable = false
  · unfold analyzeMarket at h
    rw [if_pos ht] at h
    simp only [Except.ok.injEq] at h
    subst h
    refine ⟨?_, fun _ => ⟨rfl, rfl⟩, ?_, ?_⟩
    · intro hact
      rcases hact with hact | hact <;> simp [initialSignal] at hact
    · intro htrue
      rw [ht] at htrue
      simp at htrue
    · intro htrue
      rw [ht] at htrue
      simp at htrue
  · rw [Bool.not_eq_false] at ht
    unfold analyzeMarket at h
    rw [if_neg (by simp [ht])] at h
    by_cases hz : current_price = 0 ∧ (sr.support ≠ [] ∨ sr.resistance ≠ [])
    · rw [if_pos hz] at h
      simp at h
    · rw [if_neg hz] at h
      simp only [Except.ok.injEq] at h
      subst h
      have hw : (fuseComponents maSignal sr current_price divergence orderflow).action =
          "wait" := fuseComponents_action maSignal sr current_price divergence orderflow
      refine ⟨?_, ?_, ?_, ?_⟩
      · intro hact
        have hmain := finalDecision_action_imp cfg conditions.regime conditions.volatility
          current_price (fuseComponents maSignal sr current_price divergence orderflow)
          hw hact
        rw [finalDecision_strength, finalDecision_bias]
        exact hmain
      · intro hfalse
        rw [ht] at hfalse
        simp at hfalse
      · intro _ hlow
        rw [finalDecision_low _ _ _ _ _ (not_le.mpr hlow)]
        exact ⟨hw, fun r =>
          fuseComponents_no_gateRejected maSignal sr current_price divergence orderflow r⟩
      · intro _ hge hgate
        rw [finalDecision_reject _ _ _ _ _ hge hgate]
        refine ⟨hw, ?_⟩
        simp [List.mem_append]

/-- Counterexample to claim C3 as stated: in a tradeable market with no
component firing, the accumulated strength 0 is below
`MIN_SIGNAL_STRENGTH = 60`, the action stays `wait`, and the reasons list
is EMPTY — no rejection reason is appended in the below-threshold case. -/
theorem c3_counterexample :
    analyzeMarket defConfig ⟨"trending_up", "normal", true, []⟩ ⟨"none", 0, ""⟩ ⟨[], []⟩ 100
      ⟨"none", 0, ""⟩ ⟨"neutral", 0, []⟩ = .ok ⟨"neutral", 0, [], "wait", 0, 0, 0⟩ ∧
    (0 : ℚ) < defConfig.MIN_SIGNAL_STRENGTH := by
  constructor
  · have hfuse0 : fuseComponents ⟨"none", 0, ""⟩ ⟨[], []⟩ 100 ⟨"none", 0, ""⟩
        ⟨"neutral", 0, []⟩ = ⟨"neutral", 0, [], "wait", 0, 0, 0⟩ := by
      simp [fuseComponents, addComponent, initialSignal]
    have hfd0 : finalDecision defConfig "trending_up" "normal" 100
        ⟨"neutral", 0, [], "wait", 0, 0, 0⟩ = ⟨"neutral", 0, [], "wait", 0, 0, 0⟩ := by
      apply finalDecision_low
      norm_num [defConfig]
    unfold analyzeMarket
    rw [if_neg (by simp), if_neg (by simp), hfuse0]
    exact congrArg Except.ok hfd0
  · decide

/-- Witness for the amended C3: a bullish moving-average signal of
strength 65 in a confirmed uptrend yields action `buy`, and the first
conjunct of the theorem recovers that the threshold and the gate were
indeed passed. -/
theorem c3_final_decision_witness :
    defConfig.MIN_SIGNAL_STRENGTH ≤ (65 : ℚ) ∧
      (shouldTradeInCurrentConditions defConfig "trending_up" "normal" "bullish").1 = true := by
  have hfuse : fuseComponents ⟨"bullish", 65, "ma"⟩ ⟨[], []⟩ 100 ⟨"none", 0, ""⟩
      ⟨"neutral", 0, []⟩ = ⟨"bullish", 65, [Reason.maDesc "ma"], "wait", 0, 0, 0⟩ := by
    simp [fuseComponents, addComponent, initialSignal]
  have hgate : shouldTradeInCurrentConditions defConfig "trending_up" "normal" "bullish" =
      (true, "Market conditions favorable") := by
    simp [shouldTradeInCurrentConditions]
  have h1 : (⟨"bullish", 65, [Reason.maDesc "ma"], "wait", 0, 0, 0⟩ : Signal).strength ≥
      defConfig.MIN_SIGNAL_STRENGTH := by
    norm_num [defConfig]
  have hfd : finalDecision defConfig "trending_up" "normal" 100
      ⟨"bullish", 65, [Reason.maDesc "ma"], "wait", 0, 0, 0⟩ =
      ⟨"bullish", 65, [Reason.maDesc "ma"], "buy", 100, 98, 104⟩ := by
    simp only [finalDecision]
    rw [if_pos h1, hgate]
    norm_num [defConfig]
  have hpr : analyzeMarket defConfig ⟨"trending_up", "normal", true, []⟩
      ⟨"bullish", 65, "ma"⟩ ⟨[], []⟩ 100 ⟨"none", 0, ""⟩ ⟨"neutral", 0, []⟩ =
      .ok ⟨"bullish", 65, [Reason.maDesc "ma"], "buy", 100, 98, 104⟩ := by
    unfold analyzeMarket
    rw [if_neg (by simp), if_neg (by simp), hfuse]
    exact congrArg Except.ok hfd
  exact (c3_final_decision defConfig ⟨"trending_up", "normal", true, []⟩
    ⟨"bullish", 65, "ma"⟩ ⟨[], []⟩ 100 ⟨"none", 0, ""⟩ ⟨"neutral", 0, []⟩
    ⟨"bullish", 65, [Reason.maDesc "ma"], "buy", 100, 98, 104⟩ hpr).1 (Or.inl rfl)
